import Mathlib

/-!
Verification of the fragmented-MP4 media pipeline of the
homebridge-dahua-ultimate plugin: box parsing, circular prebuffer,
recording fragment composition, motion-event parsing and resolution
negotiation, shallowly embedded from the TypeScript source.
-/

namespace DahuaSpec

/-- A byte stream is modelled as a list of naturals (each byte value 0..255). -/
abbrev Bytes := List Nat

/-- Signed big-endian 32-bit read of the first four bytes, as in
Buffer.readInt32BE(0) in Node. -/
def readInt32BE (b : Bytes) : Int :=
  let u : Nat := b.getD 0 0 * 16777216 + b.getD 1 0 * 65536 + b.getD 2 0 * 256 + b.getD 3 0
  if u < 2147483648 then (u : Int) else (u : Int) - 4294967296

/-- The four-character type tag: bytes 4..8 of the header decoded as text,
as in header.slice(4).toString(). -/
def fourCC (b : Bytes) : String :=
  String.mk (((b.drop 4).take 4).map Char.ofNat)

/-- MP4Atom from hksvHelpers.ts: 8 header bytes, decoded payload length,
four-character type tag, payload bytes. -/
structure MP4Atom where
  header : Bytes
  length : Int
  type : String
  data : Bytes
deriving DecidableEq, Repr

/-- How a finite modelled byte stream is left by a parsing loop:
either a read was rejected because the source ended before the wanted
byte count arrived (the error thrown by readLength in hksvHelpers.ts),
or the recording-session generator rejected an out-of-bounds box length
(the error thrown in startFFMPegFragmentedMP4Session). -/
inductive ParseEnd where
  | streamEnded (needed : Int)
  | invalidBox (length : Int) (type : String)
deriving DecidableEq, Repr

/-- True exactly on the invalid-box (malformed box) outcome. -/
def ParseEnd.isInvalidBox : ParseEnd → Bool
  | .invalidBox _ _ => true
  | .streamEnded _ => false

/-- The generator of startFFMPegFragmentedMP4Session (recordingDelegate.ts):
read an 8-byte header, decode the signed payload length (header value minus
8) and the type tag, reject lengths below 0 or above 50 MiB before any
payload read, otherwise read the payload and yield the atom.  Fuel-indexed
so the definition computes; fuel equal to the byte count always suffices
since every iteration consumes at least eight bytes. -/
def parseGenAux : Nat → Bytes → List MP4Atom × ParseEnd
  | 0, _ => ([], .streamEnded 8)
  | fuel + 1, b =>
    if b.length < 8 then ([], .streamEnded 8)
    else
      let header := b.take 8
      let len : Int := readInt32BE header - 8
      let t := fourCC header
      if len < 0 ∨ 52428800 < len then ([], .invalidBox len t)
      else
        let rest := b.drop 8
        if rest.length < len.toNat then ([], .streamEnded len)
        else
          let out := parseGenAux fuel (rest.drop len.toNat)
          (⟨header, len, t, rest.take len.toNat⟩ :: out.1, out.2)

/-- The recording-session box parser run over a finite byte prefix. -/
def parseGen (b : Bytes) : List MP4Atom × ParseEnd :=
  parseGenAux b.length b

/-- parseFragmentedMP4 from hksvHelpers.ts: identical header decoding but
with no bounds check on the computed payload length.  A negative length
makes readLength call readable.read with a negative size, which never
returns data, so the pending read is rejected only when the source ends
(the stream-ended error), after the payload read was attempted. -/
def parsePreAux : Nat → Bytes → List MP4Atom × ParseEnd
  | 0, _ => ([], .streamEnded 8)
  | fuel + 1, b =>
    if b.length < 8 then ([], .streamEnded 8)
    else
      let header := b.take 8
      let len : Int := readInt32BE header - 8
      let t := fourCC header
      if len < 0 then ([], .streamEnded len)
      else
        let rest := b.drop 8
        if rest.length < len.toNat then ([], .streamEnded len)
        else
          let out := parsePreAux fuel (rest.drop len.toNat)
          (⟨header, len, t, rest.take len.toNat⟩ :: out.1, out.2)

/-- The prebuffer box parser (parseFragmentedMP4) run over a finite byte
prefix. -/
def parseFragmentedMP4 (b : Bytes) : List MP4Atom × ParseEnd :=
  parsePreAux b.length b

/-- A header declaring a whole-box length of 0, so a computed payload
length of -8: four zero length bytes followed by the tag "ftyp". -/
def badHeader : Bytes := [0, 0, 0, 0, 102, 116, 121, 112]

/-- The loop body of handleFragmentsRequests (recordingDelegate.ts,
lines 337-364) as a fold over the atom sequence: the state is the
pending buffer list, the isFirstFragment flag and the held moof buffer;
the result is the list of yielded fragment buffers. -/
def fragLoop : List Bytes → Bool → Option Bytes → List MP4Atom → List Bytes
  | _, _, _, [] => []
  | pending, isFirstFragment, moofBuffer, box :: rest =>
    let pending1 := pending ++ [box.header, box.data]
    if isFirstFragment then
      if box.type = "moov" then
        pending1.flatten :: fragLoop [] false moofBuffer rest
      else
        fragLoop pending1 true moofBuffer rest
    else
      if box.type = "moof" then
        fragLoop pending1 false (some (box.header ++ box.data)) rest
      else if box.type = "mdat" then
        match moofBuffer with
        | some m => (m ++ box.header ++ box.data) :: fragLoop pending1 false none rest
        | none => fragLoop pending1 false none rest
      else
        fragLoop pending1 false moofBuffer rest

/-- The fragment buffers yielded by handleFragmentsRequests for a given
atom sequence from the transcoder. -/
def handleFragmentsRequests (atoms : List MP4Atom) : List Bytes :=
  fragLoop [] true none atoms

/-- Default prebuffer window, milliseconds (prebuffer.ts). -/
def DEFAULT_PREBUFFER_DURATION : Int := 15000

/-- A retained prebuffer entry: an atom and its observation timestamp
(PrebufferFmp4 in prebuffer.ts). -/
structure PrebufferFmp4 where
  atom : MP4Atom
  time : Int
deriving DecidableEq, Repr

/-- State of one PreBuffer instance together with the delivery record of
its subscribers: the two init atoms, the retained fragment list, the IDR
bookkeeping, the released flag, the identifiers currently registered as
atom listeners (each holding a matching once-killed cleanup), and the
atoms written so far to each subscriber socket. -/
structure PBState where
  ftyp : Option MP4Atom
  moov : Option MP4Atom
  prebufferFmp4 : List PrebufferFmp4
  prevIdr : Int
  idrInterval : Int
  released : Bool
  subs : List Nat
  outputs : Nat → List MP4Atom

/-- The eviction while-loop of the ingestion handler: shift entries from
the head while the head is older than the cutoff. -/
def evictExpired : List PrebufferFmp4 → Int → List PrebufferFmp4
  | [], _ => []
  | f :: rest, cutoff =>
    if f.time < cutoff then evictExpired rest cutoff else f :: rest

/-- One iteration of the ingestion loop in PreBuffer.startPreBuffer
(prebuffer.ts lines 66-96): capture ftyp then moov, otherwise track the
IDR interval for mdat atoms and append the timed atom; then evict expired
entries from the head; finally broadcast the atom to every registered
subscriber. -/
def ingestAtom (s : PBState) (a : MP4Atom) (now : Int) : PBState :=
  let s1 :=
    match s.ftyp with
    | none => { s with ftyp := some a }
    | some _ =>
      match s.moov with
      | none => { s with moov := some a }
      | some _ =>
        let s2 :=
          if a.type = "mdat" then
            { s with
              idrInterval := if s.prevIdr ≠ 0 then now - s.prevIdr else s.idrInterval,
              prevIdr := now }
          else s
        { s2 with prebufferFmp4 := s2.prebufferFmp4 ++ [PrebufferFmp4.mk a now] }
  let s3 := { s1 with
    prebufferFmp4 := evictExpired s1.prebufferFmp4 (now - DEFAULT_PREBUFFER_DURATION) }
  { s3 with
    outputs := fun i => if i ∈ s3.subs then s3.outputs i ++ [a] else s3.outputs i }

/-- The backlog produced by one ingestion iteration before eviction: the
timed atom is appended only once both init atoms are captured. -/
def ingestCandidate (s : PBState) (a : MP4Atom) (now : Int) : List PrebufferFmp4 :=
  match s.ftyp, s.moov with
  | some _, some _ => s.prebufferFmp4 ++ [PrebufferFmp4.mk a now]
  | _, _ => s.prebufferFmp4

/-- The backlog scan of PreBuffer.getVideo (prebuffer.ts lines 164-180):
skip fragments older than the requested window, skip until the first
moof once, then write every remaining fragment that passes the window
check. -/
def deliverBacklog : Bool → List PrebufferFmp4 → Int → Int → List MP4Atom
  | _, [], _, _ => []
  | needMoof, f :: rest, now, win =>
    if f.time < now - win then deliverBacklog needMoof rest now win
    else if needMoof ∧ f.atom.type ≠ "moof" then deliverBacklog needMoof rest now win
    else f.atom :: deliverBacklog false rest now win

/-- Everything the getVideo connection handler writes before switching the
subscriber to live mode: ftyp and moov when captured, then the backlog
scan. -/
def getVideoWrites (s : PBState) (now win : Int) : List MP4Atom :=
  (match s.ftyp with | some f => [f] | none => []) ++
  (match s.moov with | some m => [m] | none => []) ++
  deliverBacklog true s.prebufferFmp4 now win

/-- Observable operations on one PreBuffer: an ingestion-loop iteration,
a getVideo subscription connecting, and stop(). -/
inductive PBOp where
  | ingest (a : MP4Atom) (now : Int)
  | subscribe (id : Nat) (now : Int) (win : Int)
  | stop
deriving DecidableEq, Repr

/-- One step of the PreBuffer trace semantics.  subscribe writes the
preamble and backlog to the new subscriber and registers it for live
atoms; stop emits the killed event, whose once-registered cleanups remove
every current atom listener, and marks the buffer released. -/
def pbStep (s : PBState) : PBOp → PBState
  | .ingest a now => ingestAtom s a now
  | .subscribe id now win =>
    { s with
      subs := s.subs ++ [id],
      outputs := fun i =>
        if i = id then s.outputs i ++ getVideoWrites s now win else s.outputs i }
  | .stop => { s with subs := [], released := true }

/-- Run a PreBuffer trace. -/
def pbRun (s : PBState) (ops : List PBOp) : PBState :=
  ops.foldl pbStep s

/-- A freshly constructed PreBuffer: no init atoms, empty backlog, no
subscribers, nothing written. -/
def pbInit : PBState :=
  { ftyp := none, moov := none, prebufferFmp4 := [], prevIdr := 0,
    idrInterval := 0, released := false, subs := [], outputs := fun _ => [] }

/-- Whether a trace contains a subscribe operation for the given id. -/
def hasSubscribeFor (id : Nat) (t : List PBOp) : Bool :=
  t.any fun op => match op with
    | PBOp.subscribe j _ _ => j == id
    | _ => false

/-- One record yielded to the host platform by
handleRecordingStreamRequest. -/
structure RecordingPacket where
  data : Bytes
  isLast : Bool
deriving DecidableEq, Repr

/-- How the inner fragment generator behaves, as seen by
handleRecordingStreamRequest: either its setup throws before the first
yield (no source configured, or FFmpeg startup failure; after setup all
parse errors are swallowed inside handleFragmentsRequests), or it yields
a list of fragment buffers and ends. -/
inductive FragSourceOutcome where
  | setupFailure
  | frags (l : List Bytes)
deriving DecidableEq, Repr

/-- handleRecordingStreamRequest (recordingDelegate.ts lines 89-152) as a
function of whether a recording configuration is present, the inner
generator outcome, and the point at which the abort signal (if any) is
observed: without configuration it returns immediately; each delivered
fragment is yielded with isLast false; only the catch path yields the
zero-length end-marker packet. -/
def handleRecordingStreamRequest
    (hasConfiguration : Bool) (outcome : FragSourceOutcome)
    (abortAfter : Option Nat) : List RecordingPacket :=
  if !hasConfiguration then []
  else
    match outcome with
    | .setupFailure => [{ data := [], isLast := true }]
    | .frags l =>
      let delivered := match abortAfter with
        | some k => l.take k
        | none => l
      delivered.map fun d => { data := d, isLast := false }

/-- One parsed occurrence of the event pattern: event type, action text,
decoded index. -/
structure RawEvent where
  eventType : String
  action : String
  index : Nat
deriving DecidableEq, Repr

/-- parseInt on a digit run. -/
def digitsToNat (l : List Char) : Nat :=
  l.foldl (fun n c => n * 10 + (c.toNat - 48)) 0

/-- Attempt to match the regular expression
Code=([^;]+);action=([^;]+);index=(\d+) at the head of the character
list; on success return the captured groups and the characters after the
match.  The character classes exclude their terminators, so greedy
matching is the maximal run and no backtracking arises. -/
def matchEventAt (l : List Char) : Option (RawEvent × List Char) :=
  if l.take 5 ≠ ['C', 'o', 'd', 'e', '='] then none
  else
    let r1 := l.drop 5
    let t := r1.takeWhile (· ≠ ';')
    if t = [] then none
    else
      let r2 := r1.drop t.length
      if r2.take 8 ≠ [';', 'a', 'c', 't', 'i', 'o', 'n', '='] then none
      else
        let r3 := r2.drop 8
        let act := r3.takeWhile (· ≠ ';')
        if act = [] then none
        else
          let r4 := r3.drop act.length
          if r4.take 7 ≠ [';', 'i', 'n', 'd', 'e', 'x', '='] then none
          else
            let r5 := r4.drop 7
            let ds := r5.takeWhile Char.isDigit
            if ds = [] then none
            else
              some (⟨String.mk t, String.mk act, digitsToNat ds⟩, r5.drop ds.length)

/-- The global regex scan of handleChunk: successive leftmost
non-overlapping matches.  Fuel-indexed for computability; fuel equal to
the character count suffices since every step consumes at least one
character. -/
def findEventsAux : Nat → List Char → List RawEvent
  | 0, _ => []
  | _ + 1, [] => []
  | fuel + 1, c :: rest =>
    match matchEventAt (c :: rest) with
    | some (ev, remainder) => ev :: findEventsAux fuel remainder
    | none => findEventsAux fuel rest

/-- All event-pattern matches in a buffer, in order. -/
def findEvents (l : List Char) : List RawEvent :=
  findEventsAux l.length l

/-- A dispatched motion event: one-based channel id, event type, active
flag. -/
structure MotionEvent where
  channel : Nat
  eventType : String
  active : Bool
deriving DecidableEq, Repr

/-- The four motion-relevant event types of DahuaEvents.parseEvent. -/
def dahuaMotionEvents : List String :=
  ["VideoMotion", "CrossLineDetection", "CrossRegionDetection", "AlarmLocal"]

/-- DahuaEvents.parseEvent on one match: translate the zero-based index
to a one-based channel id, compare the lowercased action with start, and
dispatch only the four supported motion event types. -/
def parseEvent (ev : RawEvent) : Option MotionEvent :=
  let channelId := ev.index + 1
  let active := String.mk (ev.action.data.map Char.toLower) = "start"
  if ev.eventType ∈ dahuaMotionEvents then
    some { channel := channelId, eventType := ev.eventType, active := active }
  else
    none

/-- The motion events dispatched by DahuaEvents.handleChunk when the
given chunk is appended to the given buffer: every regex match in the
grown buffer is parsed, and the supported ones are dispatched in order. -/
def dispatchedEvents (buffer chunk : String) : List MotionEvent :=
  (findEvents (buffer ++ chunk).data).filterMap parseEvent

/-- Callbacks invoked by notifyListeners for one dispatched event: the
listener registry is consulted only at the channel id of the event. -/
def notifiedCallbacks (listeners : List (Nat × List Nat)) (e : MotionEvent) : List Nat :=
  (listeners.lookup e.channel).getD []

/-- An Mp4Session as returned by PreBuffer.startPreBuffer: the listening
server and the spawned FFmpeg subprocess, identified abstractly. -/
structure Mp4Session where
  server : Nat
  subprocess : Nat
deriving DecidableEq, Repr

/-- PreBuffer.startPreBuffer (prebuffer.ts lines 51-134): when a session
is passed in it is returned unchanged with no effect; otherwise one
listening server is opened and one FFmpeg subprocess is spawned.  The
second and third components count the subprocesses spawned and the
sockets opened by the call. -/
def startPreBufferPB (existing : Option Mp4Session) (fresh : Mp4Session) :
    Mp4Session × Nat × Nat :=
  match existing with
  | some s => (s, 0, 0)
  | none => (fresh, 1, 1)

/-- The prebuffer-related state of a RecordingDelegate: whether the
PreBuffer object exists and the stored session. -/
structure RDState where
  hasPreBuffer : Bool
  preBufferSession : Option Mp4Session
deriving DecidableEq, Repr

/-- RecordingDelegate.startPreBuffer (recordingDelegate.ts lines
216-233): only when no PreBuffer exists is one created, and only when no
session is stored is PreBuffer.startPreBuffer awaited (spawning one
subprocess and opening one socket).  The second and third components
count the subprocesses spawned and the sockets opened by the call. -/
def rdStartPreBuffer (prebufferEnabled : Bool) (s : RDState) (fresh : Mp4Session) :
    RDState × Nat × Nat :=
  if prebufferEnabled then
    if !s.hasPreBuffer then
      match s.preBufferSession with
      | none =>
        let out := startPreBufferPB none fresh
        ({ hasPreBuffer := true, preBufferSession := some out.1 }, out.2.1, out.2.2)
      | some sess => ({ hasPreBuffer := true, preBufferSession := some sess }, 0, 0)
    else (s, 0, 0)
  else (s, 0, 0)

/-- The video configuration fields consulted by
StreamingDelegate.determineResolution. -/
structure ResVideoConfig where
  maxWidth : Option Nat
  maxHeight : Option Nat
  resolutionMode : Option String
  customWidth : Option Nat
  customHeight : Option Nat
deriving DecidableEq, Repr

/-- JavaScript a || b for numbers: 0 and absence are falsy. -/
def orDefaultNum (v : Option Nat) (d : Nat) : Nat :=
  match v with
  | some n => if n = 0 then d else n
  | none => d

/-- JavaScript a || b for strings: the empty string and absence are
falsy. -/
def orDefaultStr (v : Option String) (d : String) : String :=
  match v with
  | some sv => if sv = "" then d else sv
  | none => d

/-- Effective stream dimensions. -/
structure ResolutionInfo where
  width : Nat
  height : Nat
deriving DecidableEq, Repr

/-- The dimension-resolution logic of StreamingDelegate.determineResolution
(lines 76-110): configured maxima capped by the HomeKit maxima from
settings; for live requests a non-adaptive resolution mode overrides the
requested dimensions (force-max uses the maxima, force-custom uses the
custom dimensions when both are set and nonzero); finally each dimension
exceeding its maximum is clamped to it. -/
def determineResolution (cfg : ResVideoConfig) (hkMaxW hkMaxH : Nat)
    (reqW reqH : Nat) (isSnapshot : Bool) : ResolutionInfo :=
  let maxWidth := min (orDefaultNum cfg.maxWidth hkMaxW) hkMaxW
  let maxHeight := min (orDefaultNum cfg.maxHeight hkMaxH) hkMaxH
  let resolutionMode := orDefaultStr cfg.resolutionMode "adaptive"
  let dims : Nat × Nat :=
    if !isSnapshot ∧ resolutionMode ≠ "adaptive" then
      if resolutionMode = "force-max" then (maxWidth, maxHeight)
      else if resolutionMode = "force-custom" then
        match cfg.customWidth, cfg.customHeight with
        | some cw, some ch =>
          if cw ≠ 0 ∧ ch ≠ 0 then (cw, ch) else (reqW, reqH)
        | _, _ => (reqW, reqH)
      else (reqW, reqH)
    else (reqW, reqH)
  { width := if dims.1 > maxWidth then maxWidth else dims.1,
    height := if dims.2 > maxHeight then maxHeight else dims.2 }

/-- Concrete atoms used as witnesses. -/
def ftypAtomW : MP4Atom := ⟨[0, 0, 0, 10, 102, 116, 121, 112], 2, "ftyp", [7, 7]⟩

/-- Concrete moov atom used as a witness. -/
def moovAtomW : MP4Atom := ⟨[0, 0, 0, 9, 109, 111, 111, 118], 1, "moov", [1]⟩

/-- Concrete moof atom used as a witness. -/
def moofAtomW : MP4Atom := ⟨[0, 0, 0, 9, 109, 111, 111, 102], 1, "moof", [2]⟩

/-- Second concrete moof atom used as a witness. -/
def moofAtomW2 : MP4Atom := ⟨[0, 0, 0, 9, 109, 111, 111, 102], 1, "moof", [3]⟩

/-- Concrete mdat atom used as a witness. -/
def mdatAtomW : MP4Atom := ⟨[0, 0, 0, 9, 109, 100, 97, 116], 1, "mdat", [4]⟩

/-- A PreBuffer state with captured init atoms and a two-fragment backlog,
used as a witness. -/
def pbStateW : PBState :=
  { pbInit with
    ftyp := some ftypAtomW,
    moov := some moovAtomW,
    prebufferFmp4 := [⟨moofAtomW, 100⟩, ⟨mdatAtomW, 101⟩] }

/-- A one-arrival history used as a witness for the retention
invariant. -/
def preW : List (MP4Atom × Int) := [(moofAtomW, 1000)]

/-! ## Claim theorems -/

/-- Once isFirstFragment is false the pending accumulator no longer
influences the yielded fragments. -/
lemma fragLoop_pending_irrel (atoms : List MP4Atom) :
    ∀ (pending pending' : List Bytes) (moofB : Option Bytes),
      fragLoop pending false moofB atoms = fragLoop pending' false moofB atoms := by
  induction atoms with
  | nil => intros; rfl
  | cons box rest ih =>
    intro p p' mB
    simp only [fragLoop, Bool.false_eq_true, if_false]
    by_cases h1 : box.type = "moof"
    · rw [if_pos h1, if_pos h1]
      exact ih _ _ _
    · rw [if_neg h1, if_neg h1]
      by_cases h2 : box.type = "mdat"
      · rw [if_pos h2, if_pos h2]
        cases mB with
        | some mbuf => exact congrArg _ (ih _ _ _)
        | none => exact ih _ _ _
      · rw [if_neg h2, if_neg h2]
        exact ih _ _ _

/-- The initialization phase: headers and payloads accumulate until the
first moov atom, whose arrival yields their concatenation and flips the
flag. -/
lemma fragLoop_init (pre : List MP4Atom) :
    ∀ (pending : List Bytes) (moovA : MP4Atom) (rest : List MP4Atom),
      (∀ x ∈ pre, x.type ≠ "moov") → moovA.type = "moov" →
      fragLoop pending true none (pre ++ moovA :: rest)
        = (pending.flatten ++ ((pre ++ [moovA]).map fun x => x.header ++ x.data).flatten)
          :: fragLoop [] false none rest := by
  induction pre with
  | nil =>
    intro pending moovA rest _ hm
    simp only [List.nil_append, fragLoop, if_true, hm, if_pos]
    congr 1
    simp
  | cons x pre' ih =>
    intro pending moovA rest hpre hm
    have hx : x.type ≠ "moov" := hpre x (List.mem_cons_self x pre')
    simp only [List.cons_append, fragLoop, if_true, hx, if_neg, if_false, List.append_eq]
    rw [ih (pending ++ [x.header, x.data]) moovA rest
      (fun y hy => hpre y (List.mem_cons_of_mem x hy)) hm]
    congr 1
    simp [List.append_assoc]

/-- C2: handleFragmentsRequests first yields the initialization fragment —
the concatenated headers and payloads of every atom up to and including
the first moov — then pairs each moof with the mdat that follows it
(yielding the concatenation of their headers and payloads), and a moof
followed by another moof before any mdat contributes no yielded buffer. -/
theorem C2_fragment_composition :
    (∀ (pre : List MP4Atom) (moovA : MP4Atom) (rest : List MP4Atom),
      (∀ x ∈ pre, x.type ≠ "moov") → moovA.type = "moov" →
      handleFragmentsRequests (pre ++ moovA :: rest)
        = ((pre ++ [moovA]).map fun x => x.header ++ x.data).flatten
          :: fragLoop [] false none rest) ∧
    (∀ (pending : List Bytes) (mB : Option Bytes) (moofA mdatA : MP4Atom)
        (rest : List MP4Atom),
      moofA.type = "moof" → mdatA.type = "mdat" →
      fragLoop pending false mB (moofA :: mdatA :: rest)
        = (moofA.header ++ moofA.data ++ mdatA.header ++ mdatA.data)
          :: fragLoop [] false none rest) ∧
    (∀ (pending : List Bytes) (mB : Option Bytes) (moofA moofB : MP4Atom)
        (rest : List MP4Atom),
      moofA.type = "moof" → moofB.type = "moof" →
      fragLoop pending false mB (moofA :: moofB :: rest)
        = fragLoop pending false mB (moofB :: rest)) := by
  refine ⟨?_, ?_, ?_⟩
  · intro pre moovA rest hpre hm
    rw [handleFragmentsRequests, fragLoop_init pre [] moovA rest hpre hm]
    simp
  · intro pending mB moofA mdatA rest h1 h2
    simp only [fragLoop, Bool.false_eq_true, if_false, h1, if_pos]
    have h2a : mdatA.type ≠ "moof" := by rw [h2]; decide
    rw [if_neg h2a, if_pos h2]
    exact congrArg _ (fragLoop_pending_irrel rest _ _ _)
  · intro pending mB moofA moofB rest h1 h2
    simp only [fragLoop, Bool.false_eq_true, if_false, h1, h2, if_pos]
    exact fragLoop_pending_irrel rest _ _ _

/-- C2, witness: a concrete stream ftyp, moov, moof, mdat with a dropped
duplicate moof. -/
theorem C2_witness :
    ((∀ x ∈ [ftypAtomW], x.type ≠ "moov") ∧ moovAtomW.type = "moov" ∧
      moofAtomW.type = "moof" ∧ moofAtomW2.type = "moof" ∧ mdatAtomW.type = "mdat") ∧
    handleFragmentsRequests ([ftypAtomW] ++ moovAtomW :: [])
      = [(([ftypAtomW] ++ [moovAtomW]).map fun x => x.header ++ x.data).flatten] ∧
    fragLoop [] (false) none (moofAtomW :: mdatAtomW :: [])
      = [moofAtomW.header ++ moofAtomW.data ++ mdatAtomW.header ++ mdatAtomW.data] ∧
    fragLoop [] (false) none (moofAtomW :: moofAtomW2 :: [])
      = fragLoop [] (false) none [moofAtomW2] := by
  refine ⟨⟨by decide, by decide, by decide, by decide, by decide⟩, ?_, ?_, ?_⟩
  · rw [C2_fragment_composition.1 [ftypAtomW] moovAtomW [] (by decide) (by decide)]
    rfl
  · rw [C2_fragment_composition.2.1 [] none moofAtomW mdatAtomW [] (by decide) (by decide)]
    rfl
  · exact C2_fragment_composition.2.2 [] none moofAtomW moofAtomW2 [] (by decide) (by decide)

/-- The ingestion step leaves the subscriber registry untouched, applies
append-then-evict to the backlog (appending only once both init atoms are
captured), and broadcasts the atom to exactly the registered
subscribers. -/
lemma ingestAtom_spec (s : PBState) (a : MP4Atom) (now : Int) :
    (ingestAtom s a now).subs = s.subs ∧
    (ingestAtom s a now).prebufferFmp4
      = evictExpired (ingestCandidate s a now) (now - DEFAULT_PREBUFFER_DURATION) ∧
    ∀ id, (ingestAtom s a now).outputs id
      = if id ∈ s.subs then s.outputs id ++ [a] else s.outputs id := by
  cases hf : s.ftyp <;> cases hm : s.moov <;> simp only [ingestAtom, ingestCandidate, hf, hm]
  all_goals try exact ⟨trivial, trivial, fun id => trivial⟩
  split <;> exact ⟨rfl, rfl, fun id => rfl⟩

/-- Outputs of a subscriber with no live registration and no later
subscription are frozen across any trace. -/
lemma pb_outputs_stable (t : List PBOp) :
    ∀ (s : PBState) (id : Nat),
      id ∉ s.subs → hasSubscribeFor id t = false →
      (pbRun s t).outputs id = s.outputs id ∧ id ∉ (pbRun s t).subs := by
  induction t with
  | nil => exact fun s id hid _ => ⟨rfl, hid⟩
  | cons op rest ih =>
    intro s id hid hsub
    have hsub' : hasSubscribeFor id rest = false := by
      simp only [hasSubscribeFor, List.any_cons, Bool.or_eq_false_iff] at hsub
      exact hsub.2
    have hstep : (pbStep s op).outputs id = s.outputs id ∧ id ∉ (pbStep s op).subs := by
      cases op with
      | ingest a now =>
        obtain ⟨hs, -, ho⟩ := ingestAtom_spec s a now
        refine ⟨?_, ?_⟩
        · rw [show (pbStep s (PBOp.ingest a now)) = ingestAtom s a now from rfl, ho id,
            if_neg hid]
        · rw [show (pbStep s (PBOp.ingest a now)) = ingestAtom s a now from rfl, hs]
          exact hid
      | subscribe j rnow rwin =>
        have hj : (j == id) = false := by
          simp only [hasSubscribeFor, List.any_cons, Bool.or_eq_false_iff] at hsub
          exact hsub.1
        have hne : ¬ id = j := fun h => by simp [h] at hj
        constructor
        · show (if id = j then _ else s.outputs id) = s.outputs id
          rw [if_neg hne]
        · show id ∉ s.subs ++ [j]
          intro hmem
          rcases List.mem_append.mp hmem with h | h
          · exact hid h
          · exact hne (List.mem_singleton.mp h)
      | stop =>
        exact ⟨rfl, List.not_mem_nil id⟩
    obtain ⟨h1, h2⟩ := ih (pbStep s op) id hstep.2 hsub'
    exact ⟨h1.trans hstep.1, h2⟩

/-- C1, counterexample: on the byte stream consisting of a single header
whose whole-box length field is 0 (computed payload length -8), the
prebuffer box parser parseFragmentedMP4 does not fail with the
malformed-box error: it attempts the payload read and is rejected only by
the end of the source (the stream-ended error). -/
theorem C1_counterexample :
    parseFragmentedMP4 badHeader = ([], ParseEnd.streamEnded (-8)) ∧
    (parseFragmentedMP4 badHeader).2.isInvalidBox = false := by
  constructor <;> rfl

/-- C1, amended: the out-of-bounds check on the decoded payload length
(negative or above 50 MiB) is performed only by the recording-session
generator of startFFMPegFragmentedMP4Session, which fails with the
invalid-box error before attempting the payload read; the prebuffer
parser parseFragmentedMP4 performs no such check, and on a negative
length it attempts a read that is rejected only at end of source. -/
theorem C1_amended (b : Bytes)
    (h8 : 8 ≤ b.length)
    (hbad : readInt32BE (b.take 8) - 8 < 0 ∨ 52428800 < readInt32BE (b.take 8) - 8) :
    parseGen b = ([], ParseEnd.invalidBox (readInt32BE (b.take 8) - 8) (fourCC (b.take 8))) ∧
    (readInt32BE (b.take 8) - 8 < 0 →
      parseFragmentedMP4 b = ([], ParseEnd.streamEnded (readInt32BE (b.take 8) - 8))) := by
  obtain ⟨n, hn⟩ : ∃ n, b.length = n + 1 := ⟨b.length - 1, by omega⟩
  constructor
  · show parseGenAux b.length b = _
    rw [hn]
    unfold parseGenAux
    rw [if_neg (by omega), if_pos hbad]
  · intro hneg
    show parsePreAux b.length b = _
    rw [hn]
    unfold parsePreAux
    rw [if_neg (by omega), if_pos hneg]

/-- C1, witness for the amended theorem at the concrete malformed
header. -/
theorem C1_amended_witness :
    (8 ≤ badHeader.length ∧
      (readInt32BE (badHeader.take 8) - 8 < 0 ∨
        52428800 < readInt32BE (badHeader.take 8) - 8)) ∧
    (parseGen badHeader =
        ([], ParseEnd.invalidBox (readInt32BE (badHeader.take 8) - 8)
          (fourCC (badHeader.take 8))) ∧
      (readInt32BE (badHeader.take 8) - 8 < 0 →
        parseFragmentedMP4 badHeader =
          ([], ParseEnd.streamEnded (readInt32BE (badHeader.take 8) - 8)))) :=
  ⟨⟨by decide, by decide⟩, C1_amended badHeader (by decide) (by decide)⟩

/-- C3, counterexample: stop() is called first, then a getVideo
subscription attaches, then the ingestion loop broadcasts an atom; the
late subscriber receives that atom even though the buffer was stopped and
marked released. -/
theorem C3_counterexample :
    (pbRun pbInit
        [PBOp.stop, PBOp.subscribe 0 100 4000, PBOp.ingest ftypAtomW 100]).outputs 0
      = [ftypAtomW] ∧
    (pbRun pbInit
        [PBOp.stop, PBOp.subscribe 0 100 4000, PBOp.ingest ftypAtomW 100]).released
      = true := by
  constructor <;> rfl

/-- C3, amended: stop() terminates exactly the subscriptions registered
when it is called — after stop(), any subscriber id that is not
re-subscribed receives nothing further over any continuation trace; a
subscription opened after stop() however re-registers a live listener
(the released flag is set but never consulted) and does receive later
broadcasts, as the counterexample shows. -/
theorem C3_amended (s : PBState) (t : List PBOp) (id : Nat)
    (h : hasSubscribeFor id t = false) :
    (pbRun (pbStep s PBOp.stop) t).outputs id = s.outputs id := by
  have := pb_outputs_stable t (pbStep s PBOp.stop) id (List.not_mem_nil id) h
  exact this.1

/-- C3, witness: a subscriber attached before stop() receives nothing
from an ingestion performed after stop(). -/
theorem C3_amended_witness :
    hasSubscribeFor 0 [PBOp.ingest moofAtomW 5] = false ∧
    (pbRun (pbStep (pbStep pbInit (PBOp.subscribe 0 0 1000)) PBOp.stop)
        [PBOp.ingest moofAtomW 5]).outputs 0
      = (pbStep pbInit (PBOp.subscribe 0 0 1000)).outputs 0 :=
  ⟨by decide,
    C3_amended (pbStep pbInit (PBOp.subscribe 0 0 1000)) [PBOp.ingest moofAtomW 5] 0
      (by decide)⟩

/-- Eviction only removes entries. -/
lemma evictExpired_subset (l : List PrebufferFmp4) (c : Int) :
    ∀ f ∈ evictExpired l c, f ∈ l := by
  induction l with
  | nil => intro f hf; exact absurd hf (List.not_mem_nil f)
  | cons x rest ih =>
    intro f hf
    by_cases h : x.time < c
    · rw [evictExpired, if_pos h] at hf
      exact List.mem_cons_of_mem x (ih f hf)
    · rw [evictExpired, if_neg h] at hf
      exact hf

/-- Eviction keeps timestamp order. -/
lemma evictExpired_pairwise (l : List PrebufferFmp4) (c : Int)
    (h : l.Pairwise fun p q => p.time ≤ q.time) :
    (evictExpired l c).Pairwise fun p q => p.time ≤ q.time := by
  induction l with
  | nil => exact h
  | cons x rest ih =>
    rw [List.pairwise_cons] at h
    by_cases hx : x.time < c
    · rw [evictExpired, if_pos hx]
      exact ih h.2
    · rw [evictExpired, if_neg hx]
      exact List.pairwise_cons.mpr h

/-- On an ordered backlog, head eviction leaves only entries at or above
the cutoff. -/
lemma evictExpired_lower (l : List PrebufferFmp4) (c : Int)
    (h : l.Pairwise fun p q => p.time ≤ q.time) :
    ∀ f ∈ evictExpired l c, c ≤ f.time := by
  induction l with
  | nil => intro f hf; exact absurd hf (List.not_mem_nil f)
  | cons x rest ih =>
    rw [List.pairwise_cons] at h
    intro f hf
    by_cases hx : x.time < c
    · rw [evictExpired, if_pos hx] at hf
      exact ih h.2 f hf
    · rw [evictExpired, if_neg hx] at hf
      rcases List.mem_cons.mp hf with rfl | hf'
      · omega
      · have := h.1 f hf'
        omega

/-- Backlog invariant threaded through the ingestion loop: ordered
timestamps, all at or below the clock. -/
def pbBufInv (s : PBState) (t : Int) : Prop :=
  s.prebufferFmp4.Pairwise (fun p q => p.time ≤ q.time) ∧
  ∀ f ∈ s.prebufferFmp4, f.time ≤ t

/-- The candidate backlog before eviction (append once both init atoms are
set) keeps the invariant at the new clock. -/
lemma ingest_candidate_inv (s : PBState) (a : MP4Atom) (now t : Int)
    (h : pbBufInv s t) (hle : t ≤ now) :
    (ingestCandidate s a now).Pairwise (fun p q => p.time ≤ q.time) ∧
    ∀ f ∈ ingestCandidate s a now, f.time ≤ now := by
  obtain ⟨hp, hb⟩ := h
  cases hf : s.ftyp <;> cases hm : s.moov <;> simp only [ingestCandidate, hf, hm]
  all_goals try exact ⟨hp, fun f hf' => le_trans (hb f hf') hle⟩
  constructor
  · rw [List.pairwise_append]
    refine ⟨hp, List.pairwise_singleton _ _, ?_⟩
    intro x hx y hy
    rw [List.mem_singleton.mp hy]
    show x.time ≤ now
    have := hb x hx
    omega
  · intro f hf'
    rcases List.mem_append.mp hf' with h2 | h2
    · have := hb f h2
      omega
    · rw [List.mem_singleton.mp h2]

/-- One ingestion step keeps the invariant at the arrival clock. -/
lemma ingest_preserves_inv (s : PBState) (a : MP4Atom) (now t : Int)
    (h : pbBufInv s t) (hle : t ≤ now) :
    pbBufInv (ingestAtom s a now) now := by
  obtain ⟨-, hbuf, -⟩ := ingestAtom_spec s a now
  obtain ⟨hp, hb⟩ := ingest_candidate_inv s a now t h hle
  constructor
  · rw [hbuf]
    exact evictExpired_pairwise _ _ hp
  · intro f hf
    rw [hbuf] at hf
    exact hb f (evictExpired_subset _ _ f hf)

/-- Immediately after an ingestion step every retained entry is within the
default window of the clock of that step. -/
lemma ingest_retention (s : PBState) (a : MP4Atom) (now t : Int)
    (h : pbBufInv s t) (hle : t ≤ now) :
    ∀ f ∈ (ingestAtom s a now).prebufferFmp4,
      now - DEFAULT_PREBUFFER_DURATION ≤ f.time := by
  obtain ⟨-, hbuf, -⟩ := ingestAtom_spec s a now
  obtain ⟨hp, -⟩ := ingest_candidate_inv s a now t h hle
  intro f hf
  rw [hbuf] at hf
  exact evictExpired_lower (ingestCandidate s a now)
    (now - DEFAULT_PREBUFFER_DURATION) hp f hf

/-- Retention holds after the last of any monotone run of ingestion
steps, from any state satisfying the invariant. -/
lemma C4_aux (pre : List (MP4Atom × Int)) :
    ∀ (a : MP4Atom) (now : Int) (s : PBState) (t : Int),
      pbBufInv s t →
      List.Chain (fun x y => x ≤ y) t ((pre ++ [(a, now)]).map Prod.snd) →
      ∀ f ∈ (pbRun s ((pre ++ [(a, now)]).map fun p => PBOp.ingest p.1 p.2)).prebufferFmp4,
        now - DEFAULT_PREBUFFER_DURATION ≤ f.time := by
  induction pre with
  | nil =>
    intro a now s t hinv hch f hf
    rw [List.nil_append, List.map_cons, List.chain_cons] at hch
    exact ingest_retention s a now t hinv hch.1 f hf
  | cons p pre' ih =>
    intro a now s t hinv hch f hf
    rw [List.cons_append, List.map_cons, List.chain_cons] at hch
    exact ih a now (ingestAtom s p.1 p.2) p.2
      (ingest_preserves_inv s p.1 p.2 t hinv hch.1) hch.2 f hf

/-- C4: for any monotonically timestamped arrival sequence, immediately
after the ingestion loop processes an atom observed at time now, every
fragment retained in prebufferFmp4 satisfies
time >= now - DEFAULT_PREBUFFER_DURATION; eviction happens in the same
iteration, with no separate timer modelled. -/
theorem C4_retention_invariant (pre : List (MP4Atom × Int)) (a : MP4Atom) (now : Int)
    (hmono : ((pre ++ [(a, now)]).map Prod.snd).Chain' (· ≤ ·)) :
    ∀ f ∈ (pbRun pbInit
        ((pre ++ [(a, now)]).map fun p => PBOp.ingest p.1 p.2)).prebufferFmp4,
      now - DEFAULT_PREBUFFER_DURATION ≤ f.time := by
  have hinv : pbBufInv pbInit (((pre ++ [(a, now)]).map Prod.snd).headI) :=
    ⟨List.Pairwise.nil, fun f hf => absurd hf (List.not_mem_nil f)⟩
  apply C4_aux pre a now pbInit _ hinv
  cases he : (pre ++ [(a, now)]).map Prod.snd with
  | nil =>
    exact absurd he (by simp)
  | cons t0 rest =>
    rw [he] at hmono
    exact List.Chain.cons (le_refl t0) hmono

/-- C4, witness: two arrivals 20 seconds apart evict the first fragment
and retain the second. -/
theorem C4_retention_witness :
    ((preW ++ [(mdatAtomW, 21000)]).map Prod.snd).Chain' (· ≤ ·) ∧
    ∀ f ∈ (pbRun pbInit
        ((preW ++ [(mdatAtomW, 21000)]).map
          fun p : MP4Atom × Int => PBOp.ingest p.1 p.2)).prebufferFmp4,
      21000 - DEFAULT_PREBUFFER_DURATION ≤ f.time :=
  ⟨by norm_num [preW, List.chain'_cons],
    C4_retention_invariant preW mdatAtomW 21000 (by norm_num [preW, List.chain'_cons])⟩

/-- Once the first moof boundary is passed, the getVideo scan writes every
remaining fragment that passes the window check. -/
lemma deliverBacklog_false (l : List PrebufferFmp4) (now win : Int) :
    deliverBacklog false l now win
      = (l.filter fun fr => decide (now - win ≤ fr.time)).map (·.atom) := by
  induction l with
  | nil => rfl
  | cons f rest ih =>
    by_cases h : f.time < now - win
    · have hq : (decide (now - win ≤ f.time)) = false := by simp; omega
      calc deliverBacklog false (f :: rest) now win
          = deliverBacklog false rest now win := by rw [deliverBacklog, if_pos h]
        _ = (rest.filter fun fr => decide (now - win ≤ fr.time)).map (·.atom) := ih
        _ = ((f :: rest).filter fun fr => decide (now - win ≤ fr.time)).map (·.atom) := by
            rw [List.filter_cons, hq]
            rfl
    · have hq : (decide (now - win ≤ f.time)) = true := by simp; omega
      calc deliverBacklog false (f :: rest) now win
          = f.atom :: deliverBacklog false rest now win := by
            rw [deliverBacklog, if_neg h]
            rfl
        _ = f.atom :: (rest.filter fun fr => decide (now - win ≤ fr.time)).map (·.atom) := by
            rw [ih]
        _ = ((f :: rest).filter fun fr => decide (now - win ≤ fr.time)).map (·.atom) := by
            rw [List.filter_cons, hq]
            rfl

/-- The whole getVideo scan: window filter, then drop until the first
moof, then everything to the end. -/
lemma deliverBacklog_true (l : List PrebufferFmp4) (now win : Int) :
    deliverBacklog true l now win
      = (((l.filter fun fr => decide (now - win ≤ fr.time)).dropWhile
            fun fr => decide (fr.atom.type ≠ "moof")).map (·.atom)) := by
  induction l with
  | nil => rfl
  | cons f rest ih =>
    by_cases h : f.time < now - win
    · have hq : (decide (now - win ≤ f.time)) = false := by simp; omega
      rw [List.filter_cons, hq]
      show deliverBacklog true (f :: rest) now win = _
      rw [deliverBacklog, if_pos h]
      exact ih
    · have hq : (decide (now - win ≤ f.time)) = true := by simp; omega
      have hfe : ((f :: rest).filter fun fr => decide (now - win ≤ fr.time))
          = f :: rest.filter fun fr => decide (now - win ≤ fr.time) := by
        rw [List.filter_cons, hq]
        rfl
      by_cases hmo : f.atom.type = "moof"
      · have hp : (decide (f.atom.type ≠ "moof")) = false := by simp [hmo]
        have hde : ((f :: rest.filter fun fr => decide (now - win ≤ fr.time)).dropWhile
              fun fr => decide (fr.atom.type ≠ "moof"))
            = f :: rest.filter fun fr => decide (now - win ≤ fr.time) := by
          rw [List.dropWhile_cons, hp]
          rfl
        rw [hfe, hde, List.map_cons]
        show deliverBacklog true (f :: rest) now win = _
        rw [deliverBacklog, if_neg h, if_neg fun hc => hc.2 hmo]
        exact congrArg _ (deliverBacklog_false rest now win)
      · have hp : (decide (f.atom.type ≠ "moof")) = true := by simp [hmo]
        rw [hfe, List.dropWhile_cons, hp, if_pos rfl]
        show deliverBacklog true (f :: rest) now win = _
        rw [deliverBacklog, if_neg h, if_pos (And.intro rfl hmo)]
        exact ih

/-- The head of a dropWhile run refutes the predicate. -/
lemma head_of_dropWhile_eq_false {α : Type} (p : α → Bool) (l : List α) :
    ∀ g, (l.dropWhile p).head? = some g → p g = false := by
  induction l with
  | nil => intro g hg; cases hg
  | cons x rest ih =>
    intro g hg
    rw [List.dropWhile_cons] at hg
    by_cases hx : p x = true
    · rw [if_pos hx] at hg
      exact ih g hg
    · rw [if_neg hx] at hg
      cases hg
      simpa using hx

/-- C5: a subscription opened when both init atoms are captured first
receives ftyp then moov, then — of the retained fragments — those within
the requested window, skipped forward to the first moof boundary and
delivered in order to the end of the backlog; the first fragment unit
after the preamble, when one exists, has type moof. -/
theorem C5_subscriber_order (s : PBState) (id : Nat) (now win : Int) (f m : MP4Atom)
    (hf : s.ftyp = some f) (hm : s.moov = some m) :
    (pbStep s (PBOp.subscribe id now win)).outputs id
      = s.outputs id ++ f :: m ::
          (((s.prebufferFmp4.filter fun fr => decide (now - win ≤ fr.time)).dropWhile
              fun fr => decide (fr.atom.type ≠ "moof")).map (·.atom)) ∧
    ∀ g, (((s.prebufferFmp4.filter fun fr => decide (now - win ≤ fr.time)).dropWhile
            fun fr => decide (fr.atom.type ≠ "moof")).head? = some g →
          g.atom.type = "moof") := by
  constructor
  · show (if id = id then s.outputs id ++ getVideoWrites s now win else s.outputs id) = _
    rw [if_pos rfl, getVideoWrites, hf, hm, deliverBacklog_true]
    simp
  · intro g hg
    have := head_of_dropWhile_eq_false
      (fun fr => decide (fr.atom.type ≠ "moof")) _ g hg
    simpa using this

/-- C5, witness: a concrete state with captured init atoms and a backlog
whose first entry is a moof boundary. -/
theorem C5_subscriber_order_witness :
    (pbStateW.ftyp = some ftypAtomW ∧ pbStateW.moov = some moovAtomW) ∧
    (pbStep pbStateW (PBOp.subscribe 1 101 15000)).outputs 1
      = pbStateW.outputs 1 ++ ftypAtomW :: moovAtomW ::
          (((pbStateW.prebufferFmp4.filter
                fun fr => decide ((101 : Int) - 15000 ≤ fr.time)).dropWhile
              fun fr => decide (fr.atom.type ≠ "moof")).map (·.atom)) :=
  ⟨⟨rfl, rfl⟩,
    (C5_subscriber_order pbStateW 1 101 15000 ftypAtomW moovAtomW rfl rfl).1⟩

/-- C6, counterexample: a recording stream that ends normally after
delivering one fragment yields only that fragment with isLast false and
never yields the zero-length end-marker record. -/
theorem C6_counterexample :
    handleRecordingStreamRequest true (FragSourceOutcome.frags [[0]]) none
      = [{ data := [0], isLast := false }] ∧
    ((handleRecordingStreamRequest true (FragSourceOutcome.frags [[0]]) none).all
      fun p => !p.isLast) = true := by
  constructor <;> rfl

/-- C6, amended: the zero-length end-marker record is yielded exactly on
the failure path (the inner fragment generator throwing during setup);
on normal stream end every yielded record carries isLast false and no
final marker is produced. -/
theorem C6_amended :
    (∀ abortAfter,
      handleRecordingStreamRequest true FragSourceOutcome.setupFailure abortAfter
        = [{ data := [], isLast := true }]) ∧
    (∀ (l : List Bytes) (abortAfter : Option Nat)
        (p : RecordingPacket),
      p ∈ handleRecordingStreamRequest true (FragSourceOutcome.frags l) abortAfter →
      p.isLast = false) := by
  constructor
  · intro abortAfter
    rfl
  · intro l abortAfter p hp
    cases abortAfter <;>
      · simp only [handleRecordingStreamRequest, Bool.not_true, Bool.false_eq_true,
          if_false, List.mem_map] at hp
        obtain ⟨d, -, rfl⟩ := hp
        rfl

/-- C6, witness for the amended theorem at concrete inputs. -/
theorem C6_amended_witness :
    handleRecordingStreamRequest true FragSourceOutcome.setupFailure none
      = [{ data := [], isLast := true }] ∧
    ({ data := [0], isLast := false } : RecordingPacket).isLast = false :=
  ⟨C6_amended.1 none,
    C6_amended.2 [[0]] none { data := [0], isLast := false } (by decide)⟩

/-- C7: the chunk Code=VideoMotion;action=Start;index=4 dispatches exactly
one motion event with one-based channel 5, type VideoMotion and active
true, delivered to the callbacks registered for channel 5; the chunk
Code=VideoLoss;action=Start;index=0 dispatches nothing because VideoLoss
is not a motion-relevant type. -/
theorem C7_handleChunk :
    dispatchedEvents "" "Code=VideoMotion;action=Start;index=4"
      = [{ channel := 5, eventType := "VideoMotion", active := true }] ∧
    dispatchedEvents "" "Code=VideoLoss;action=Start;index=0" = [] ∧
    ∀ cbs : List Nat,
      notifiedCallbacks [(5, cbs)]
        { channel := 5, eventType := "VideoMotion", active := true } = cbs := by
  refine ⟨by decide, by decide, ?_⟩
  intro cbs
  rfl

/-- C8: starting the prebuffer is idempotent — with a PreBuffer already
present the delegate call leaves the state unchanged and spawns no
subprocess and opens no socket, and PreBuffer.startPreBuffer returns a
passed-in session unchanged with no effect; only the first call (no
PreBuffer, no session) spawns exactly one subprocess and opens exactly
one listening socket, storing the fresh session. -/
theorem C8_startPreBuffer_idempotent :
    (∀ (en : Bool) (s : RDState) (fresh : Mp4Session),
      s.hasPreBuffer = true → rdStartPreBuffer en s fresh = (s, 0, 0)) ∧
    (∀ (sess fresh : Mp4Session), startPreBufferPB (some sess) fresh = (sess, 0, 0)) ∧
    (∀ fresh : Mp4Session,
      rdStartPreBuffer true { hasPreBuffer := false, preBufferSession := none } fresh
        = ({ hasPreBuffer := true, preBufferSession := some fresh }, 1, 1)) := by
  refine ⟨?_, fun sess fresh => rfl, fun fresh => rfl⟩
  intro en s fresh h
  unfold rdStartPreBuffer
  rw [h]
  cases en <;> rfl

/-- C8, witness: a first call spawns the resources, a second call with the
resulting state is a no-op. -/
theorem C8_witness :
    ({ hasPreBuffer := true, preBufferSession := some ⟨1, 2⟩ } : RDState).hasPreBuffer
      = true ∧
    rdStartPreBuffer true { hasPreBuffer := true, preBufferSession := some ⟨1, 2⟩ } ⟨3, 4⟩
      = ({ hasPreBuffer := true, preBufferSession := some ⟨1, 2⟩ }, 0, 0) :=
  ⟨rfl, C8_startPreBuffer_idempotent.1 true
    { hasPreBuffer := true, preBufferSession := some ⟨1, 2⟩ } ⟨3, 4⟩ rfl⟩

/-- The final clamp of determineResolution never exceeds the maximum. -/
lemma clamp_le (d m : Nat) : (if d > m then m else d) ≤ m := by
  split <;> omega

/-- The final clamp of determineResolution is the minimum. -/
lemma clamp_eq_min (d m : Nat) : (if d > m then m else d) = min d m := by
  rw [min_def]
  split <;> split <;> omega

/-- On the clamp-scenario configuration the resolution logic reduces to
the plain clamp of the requested dimensions. -/
lemma determineResolution_scenario (hkW hkH : Nat) :
    determineResolution ⟨some 1920, some 1080, none, none, none⟩ hkW hkH 2560 1440 false
      = { width := if 2560 > min 1920 hkW then min 1920 hkW else 2560,
          height := if 1440 > min 1080 hkH then min 1080 hkH else 1440 } := rfl

/-- For snapshot requests the resolution logic reduces to the plain clamp
of the requested dimensions, whatever the configuration. -/
lemma determineResolution_snapshot (cfg : ResVideoConfig) (hkW hkH reqW reqH : Nat) :
    determineResolution cfg hkW hkH reqW reqH true
      = { width := if reqW > min (orDefaultNum cfg.maxWidth hkW) hkW
            then min (orDefaultNum cfg.maxWidth hkW) hkW else reqW,
          height := if reqH > min (orDefaultNum cfg.maxHeight hkH) hkH
            then min (orDefaultNum cfg.maxHeight hkH) hkH else reqH } := rfl

/-- C9: resolved dimensions never exceed the configured maxima (as capped
by the HomeKit maxima), and in the clamp scenario — configured
maxWidth 1920 and maxHeight 1080, a live request of 2560x1440 — the
resolution resolves to 1920x1080. -/
theorem C9_resolution_clamp :
    (∀ (cfg : ResVideoConfig) (hkW hkH reqW reqH : Nat) (snap : Bool),
      (determineResolution cfg hkW hkH reqW reqH snap).width
          ≤ min (orDefaultNum cfg.maxWidth hkW) hkW ∧
      (determineResolution cfg hkW hkH reqW reqH snap).height
          ≤ min (orDefaultNum cfg.maxHeight hkH) hkH) ∧
    (∀ hkW hkH : Nat, 1920 ≤ hkW → 1080 ≤ hkH →
      determineResolution ⟨some 1920, some 1080, none, none, none⟩ hkW hkH 2560 1440 false
        = ⟨1920, 1080⟩) := by
  constructor
  · intro cfg hkW hkH reqW reqH snap
    exact ⟨clamp_le _ _, clamp_le _ _⟩
  · intro hkW hkH h1 h2
    rw [determineResolution_scenario, min_eq_left h1, min_eq_left h2]
    rfl

/-- C9, witness at the HomeKit maxima themselves. -/
theorem C9_witness :
    (1920 ≤ 1920 ∧ 1080 ≤ 1080) ∧
    determineResolution ⟨some 1920, some 1080, none, none, none⟩ 1920 1080 2560 1440 false
      = ⟨1920, 1080⟩ :=
  ⟨⟨by decide, by decide⟩,
    C9_resolution_clamp.2 1920 1080 (by decide) (by decide)⟩

/-- C10: for snapshot requests the configured resolutionMode is ignored —
the result is invariant under any change of the mode — and the resolved
dimensions are exactly the requested ones clamped to the configured
maxima. -/
theorem C10_snapshot_ignores_mode :
    ∀ (cfg : ResVideoConfig) (hkW hkH reqW reqH : Nat) (mode : Option String),
      determineResolution { cfg with resolutionMode := mode } hkW hkH reqW reqH true
        = determineResolution cfg hkW hkH reqW reqH true ∧
      determineResolution cfg hkW hkH reqW reqH true
        = ⟨min reqW (min (orDefaultNum cfg.maxWidth hkW) hkW),
           min reqH (min (orDefaultNum cfg.maxHeight hkH) hkH)⟩ := by
  intro cfg hkW hkH reqW reqH mode
  constructor
  · rw [determineResolution_snapshot, determineResolution_snapshot]
  · rw [determineResolution_snapshot]
    simp only [ResolutionInfo.mk.injEq]
    constructor <;> exact clamp_eq_min _ _

end DahuaSpec
